import Mathlib

/-!
Verification of the SpriteGen scene compositing and animation engine.

Shallow embedding of the core operations of `src/js/dialogue.js`,
`src/js/canvas.js`, `src/js/utils.js` and the typing-duration estimate of
`src/js/app.js` (`loadSceneToCanvas`).  Strings are modelled as `List Char`,
JS numbers as `ℚ` (exact arithmetic) or `Nat` where the code only ever holds
integers.  Scanning loops that advance an index through the input are given
an explicit fuel argument equal to the input length, which always suffices
because every step consumes at least one character; this keeps every
definition executable and kernel-reducible.
-/

/-- A parsed dialogue segment, mirroring the objects pushed by
`DialogueSystem.parseTextWithPauses` (dialogue.js:231-264):
either `{type:'text', content:string}` or `{type:'pause', content:number}`. -/
inductive Segment where
  | text : List Char → Segment
  | pause : Nat → Segment
deriving DecidableEq

/-- `parseInt` on a string of decimal digits (the regex capture `(\d+)`). -/
def digitsToNat (ds : List Char) : Nat :=
  ds.foldl (fun n c => 10 * n + (c.toNat - 48)) 0

/-- Matching the regex `\[\[(\d+)\]\]` at the head of the input.
Because `]` is not a digit, regex backtracking over `\d+` can never succeed
after the maximal digit run fails, so the regex matches at a position iff
`[[` is followed by a nonempty maximal digit run followed by `]]`.
Returns the captured digit string and the remainder after the match. -/
def matchPause : List Char → Option (List Char × List Char)
  | '[' :: '[' :: rest =>
    if (rest.takeWhile Char.isDigit).isEmpty then none
    else
      match rest.dropWhile Char.isDigit with
      | ']' :: ']' :: tail => some (rest.takeWhile Char.isDigit, tail)
      | _ => none
  | _ => none

/-- Whether the input contains a well-formed pause directive `[[<integer>]]`
anywhere (i.e. whether the global regex of `parseTextWithPauses` finds any
match). -/
def hasDirective : List Char → Bool
  | [] => false
  | c :: rest => (matchPause (c :: rest)).isSome || hasDirective rest

/-- The scanning loop of `DialogueSystem.parseTextWithPauses`
(dialogue.js:231-264).  `acc` holds the pending text characters (reversed)
accumulated since the previous match, mirroring `text.slice(lastIndex,
match.index)`; a text segment is pushed only when that slice is nonempty
(`match.index > lastIndex`), and the trailing slice is pushed only when
nonempty (`lastIndex < text.length`).  The fuel-exhausted branch is
unreachable whenever `fuel` is at least the input length. -/
def parseAux : Nat → List Char → List Char → List Segment
  | _, acc, [] => if acc.isEmpty then [] else [Segment.text acc.reverse]
  | 0, acc, c :: rest => [Segment.text (acc.reverse ++ c :: rest)]
  | fuel + 1, acc, c :: rest =>
    match matchPause (c :: rest) with
    | some (ds, tail) =>
      (if acc.isEmpty then [] else [Segment.text acc.reverse]) ++
        Segment.pause (digitsToNat ds) :: parseAux fuel [] tail
    | none => parseAux fuel (c :: acc) rest

/-- `DialogueSystem.parseTextWithPauses` (dialogue.js:231-264). -/
def parseTextWithPauses (s : List Char) : List Segment :=
  parseAux s.length [] s

/-- The scanning loop of `text.replace(/\[\[\d+\]\]/g, '')`. -/
def cleanAux : Nat → List Char → List Char
  | _, [] => []
  | 0, s => s
  | fuel + 1, c :: rest =>
    match matchPause (c :: rest) with
    | some (_, tail) => cleanAux fuel tail
    | none => c :: cleanAux fuel rest

/-- `DialogueSystem.getCleanText` (dialogue.js:374-376):
`text.replace(/\[\[\d+\]\]/g, '')`. -/
def getCleanText (s : List Char) : List Char :=
  cleanAux s.length s

/-- Concatenation, in order, of the contents of the text segments of a
segment list (the characters the typewriter would reveal). -/
def segmentsText : List Segment → List Char
  | [] => []
  | Segment.text t :: rest => t ++ segmentsText rest
  | Segment.pause _ :: rest => segmentsText rest

/-- Re-interleaving a segment list back into raw text, printing each pause
segment as a `[[n]]` directive with `n` in canonical decimal notation. -/
def renderSegments : List Segment → List Char
  | [] => []
  | Segment.text t :: rest => t ++ renderSegments rest
  | Segment.pause n :: rest =>
    '[' :: '[' :: (Nat.repr n).data ++ ']' :: ']' :: renderSegments rest

/-- Scan of the input checking that every well-formed pause directive writes
its integer canonically (no leading zeros): the captured digit string equals
the decimal rendering of its `parseInt` value. -/
def canonAux : Nat → List Char → Bool
  | _, [] => true
  | 0, _ => true
  | fuel + 1, c :: rest =>
    match matchPause (c :: rest) with
    | some (ds, tail) =>
      ((Nat.repr (digitsToNat ds)).data == ds) && canonAux fuel tail
    | none => canonAux fuel rest

/-- Every pause directive of the input is written canonically. -/
def canonicalDirectives (s : List Char) : Bool :=
  canonAux s.length s

/-- Which pending `setTimeout` callback is scheduled in `typingTimeout`:
the pause-advance closure (dialogue.js:306-310) or the per-character tick
(dialogue.js:321-323). -/
inductive TimerKind where
  | pauseAdvance : TimerKind
  | charTick : TimerKind
deriving DecidableEq

/-- The typing-relevant state of `DialogueSystem`: the current dialogue's
runtime fields plus the typing animation bookkeeping
(dialogue.js:15-31).  `typingTimeout = none` models the absence of a
pending reveal timer; `some k` a scheduled `setTimeout` of kind `k`. -/
structure TypingState where
  text : List Char
  displayedText : List Char
  isTyping : Bool
  typingComplete : Bool
  typingTimeout : Option TimerKind
  parsedSegments : List Segment
  currentSegmentIndex : Nat
  typingIndex : Nat
deriving DecidableEq

/-- `DialogueSystem.stopTyping` (dialogue.js:361-367): clear any pending
timer and mark not typing. -/
def stopTyping (st : TypingState) : TypingState :=
  { st with typingTimeout := none, isTyping := false }

/-- `DialogueSystem.finishTyping` (dialogue.js:336-348): mark complete and
set `displayedText` to the full text without pause markers.  (The
`onTypingUpdate`/`onTypingComplete` callbacks notify the excluded UI layer
and mutate no dialogue state.) -/
def finishTyping (st : TypingState) : TypingState :=
  { st with
    isTyping := false
    typingComplete := true
    displayedText := getCleanText st.text }

/-- `DialogueSystem.skipTyping` (dialogue.js:353-356): `stopTyping` then
`finishTyping`. -/
def skipTyping (st : TypingState) : TypingState :=
  finishTyping (stopTyping st)

/-- `DialogueSystem.typeNextCharacter` (dialogue.js:296-331).  The
synchronous self-calls (moving past an exhausted text segment) advance
`currentSegmentIndex`, so `parsedSegments.length + 1` steps of fuel always
suffice. -/
def typeNextCharacterAux : Nat → TypingState → TypingState
  | 0, st => st
  | fuel + 1, st =>
    match st.parsedSegments.get? st.currentSegmentIndex with
    | none => finishTyping st
    | some (Segment.pause _) => { st with typingTimeout := some TimerKind.pauseAdvance }
    | some (Segment.text t) =>
      match t.get? st.typingIndex with
      | some ch =>
        { st with
          displayedText := st.displayedText ++ [ch]
          typingIndex := st.typingIndex + 1
          typingTimeout := some TimerKind.charTick }
      | none =>
        typeNextCharacterAux fuel
          { st with currentSegmentIndex := st.currentSegmentIndex + 1, typingIndex := 0 }

/-- `DialogueSystem.typeNextCharacter` with sufficient fuel. -/
def typeNextCharacter (st : TypingState) : TypingState :=
  typeNextCharacterAux (st.parsedSegments.length + 1) st

/-- Firing the pending `typingTimeout` callback, the only source of further
typewriter mutation once `startTyping` has returned: the pause closure
advances to the next segment then continues (dialogue.js:306-310), the
character tick just continues (dialogue.js:321-323).  With no pending
timer nothing happens. -/
def fireTypingTimeout (st : TypingState) : TypingState :=
  match st.typingTimeout with
  | none => st
  | some TimerKind.pauseAdvance =>
    typeNextCharacter
      { st with
        typingTimeout := none
        currentSegmentIndex := st.currentSegmentIndex + 1
        typingIndex := 0 }
  | some TimerKind.charTick =>
    typeNextCharacter { st with typingTimeout := none }

/-- `DialogueSystem.startTyping` (dialogue.js:271-291). -/
def startTyping (st : TypingState) : TypingState :=
  let st₁ := stopTyping st
  let st₂ :=
    { st₁ with
      displayedText := []
      isTyping := true
      typingComplete := false
      typingIndex := 0
      currentSegmentIndex := 0
      parsedSegments := parseTextWithPauses st₁.text }
  if st₂.parsedSegments.isEmpty then finishTyping st₂ else typeNextCharacter st₂

/-- An authored dialogue line, restricted to the fields consulted by
`advanceToNextLine` and the typing-duration estimate (`text`,
`typingSpeed`, `visible`); the presentation-only fields (`character`,
`style`, `boxColor`) are never read by the modelled operations. -/
structure DialogueLine where
  text : List Char
  typingSpeed : Nat
  visible : Bool
deriving DecidableEq

/-- The line-cursor state of `DialogueSystem` (dialogue.js:8-25):
the authored list, the cursor, the current-line projection and the fade
flag. -/
structure DialogueCursor where
  dialogueLines : List DialogueLine
  currentLineIndex : Nat
  currentDialogue : DialogueLine
  isFading : Bool
deriving DecidableEq

/-- The synchronous part of `DialogueSystem.advanceToNextLine`
(dialogue.js:125-152).  At the last line (`currentLineIndex >=
dialogueLines.length - 1`, which with JS arithmetic is also true for an
empty list) it fires `onAllLinesComplete` (pure notification) and returns
`false` without mutating anything; otherwise it sets `isFading` and starts
the fade-out animation (the cursor increment and projection swap happen in
the fade-out completion callback, modelled by `advanceFadeOutComplete`),
returning `true`. -/
def advanceToNextLine (d : DialogueCursor) : Bool × DialogueCursor :=
  if d.currentLineIndex + 1 ≥ d.dialogueLines.length then (false, d)
  else (true, { d with isFading := true })

/-- The fade-out completion callback inside `advanceToNextLine`
(dialogue.js:136-148): increment the cursor and swap the current-line
projection to the next authored line (`setDialogue` merge). -/
def advanceFadeOutComplete (d : DialogueCursor) : DialogueCursor :=
  { d with
    currentLineIndex := d.currentLineIndex + 1
    currentDialogue :=
      (d.dialogueLines.get? (d.currentLineIndex + 1)).getD d.currentDialogue }

/-- A rendered sprite instance, restricted to the transform fields mutated
by the modelled operations (canvas.js; the bitmap handles and name are
never consulted by them). -/
structure Sprite where
  id : Nat
  x : ℚ
  y : ℚ
  scale : ℚ
  opacity : ℚ
deriving DecidableEq

/-- The `properties` argument of `CanvasEngine.updateSprite`: a partial
record of transform fields; `Object.assign` overwrites exactly the fields
present. -/
structure SpriteProps where
  x : Option ℚ
  y : Option ℚ
  scale : Option ℚ
  opacity : Option ℚ
deriving DecidableEq

/-- `Object.assign(sprite, properties)` (canvas.js:631): each present
property overwrites the sprite's field verbatim. -/
def assignProps (s : Sprite) (p : SpriteProps) : Sprite :=
  { s with
    x := p.x.getD s.x
    y := p.y.getD s.y
    scale := p.scale.getD s.scale
    opacity := p.opacity.getD s.opacity }

/-- In-place mutation of the first sprite found by id (JS `Array.find`
returns the first match and the code mutates that object). -/
def replaceFirst : List Sprite → Nat → (Sprite → Sprite) → List Sprite
  | [], _, _ => []
  | s :: rest, spriteId, f =>
    if s.id = spriteId then f s :: rest else s :: replaceFirst rest spriteId f

/-- `CanvasEngine.updateSprite` (canvas.js:628-634): find the sprite by id
and `Object.assign` the given properties onto it (no clamping of any
field). -/
def updateSprite (sprites : List Sprite) (spriteId : Nat) (p : SpriteProps) : List Sprite :=
  replaceFirst sprites spriteId (fun s => assignProps s p)

/-- The grabbed resize corner (canvas.js:27). -/
inductive Corner where
  | tl : Corner
  | tr : Corner
  | bl : Corner
  | br : Corner
deriving DecidableEq

/-- The diagonal drag delta of the resize branch of
`CanvasEngine.onMouseMove` (canvas.js:474-480), from the pointer movement
`(dx, dy)` relative to the drag start. -/
def resizeDelta (corner : Corner) (dx dy : ℚ) : ℚ :=
  match corner with
  | Corner.br => (dx + dy) / 2
  | Corner.bl => (-dx + dy) / 2
  | Corner.tr => (dx - dy) / 2
  | Corner.tl => (-dx - dy) / 2

/-- The new scale assigned by the resize branch of
`CanvasEngine.onMouseMove` (canvas.js:483-484):
`Math.round(Math.max(10, Math.min(300, resizeStart.scale + delta * 0.5)))`
(`round` is `⌊x + 1/2⌋`, exactly JS `Math.round`). -/
def resizeScale (startScale delta : ℚ) : ℤ :=
  round (max 10 (min 300 (startScale + delta * (1 / 2))))

/-- The named easing curves of `easingFunctions` (utils.js:168-199), minus
`easeOutElastic` whose core uses the transcendental functions `2^x` and
`sin` and therefore has no exact rational embedding (it is irrelevant to
the claims: it is not monotone, and its value at 0 is the explicit
`t === 0 ? 0` branch).  `other` stands for any unknown name, which
`applyEasing` sends to the `easeInOut` fallback (utils.js:208). -/
inductive EasingName where
  | linear : EasingName
  | easeIn : EasingName
  | easeOut : EasingName
  | easeInOut : EasingName
  | easeInCubic : EasingName
  | easeOutCubic : EasingName
  | easeInOutCubic : EasingName
  | easeInQuart : EasingName
  | easeOutQuart : EasingName
  | easeInOutQuart : EasingName
  | easeOutBack : EasingName
  | other : EasingName
deriving DecidableEq

/-- `easingFunctions[name]` (utils.js:168-199) with the unknown-name
fallback to `easeInOut`. -/
def easingFun : EasingName → ℚ → ℚ
  | EasingName.linear => fun t => t
  | EasingName.easeIn => fun t => t * t
  | EasingName.easeOut => fun t => t * (2 - t)
  | EasingName.easeInOut => fun t => if t < 1 / 2 then 2 * t * t else -1 + (4 - 2 * t) * t
  | EasingName.easeInCubic => fun t => t * t * t
  | EasingName.easeOutCubic => fun t => (t - 1) * (t - 1) * (t - 1) + 1
  | EasingName.easeInOutCubic => fun t =>
      if t < 1 / 2 then 4 * t * t * t else (t - 1) * (2 * t - 2) * (2 * t - 2) + 1
  | EasingName.easeInQuart => fun t => t * t * t * t
  | EasingName.easeOutQuart => fun t => 1 - (t - 1) * (t - 1) * (t - 1) * (t - 1)
  | EasingName.easeInOutQuart => fun t =>
      if t < 1 / 2 then 8 * t * t * t * t
      else 1 - 8 * (t - 1) * (t - 1) * (t - 1) * (t - 1)
  | EasingName.easeOutBack => fun t =>
      1 + (170158 / 100000 + 1) * (t - 1) * (t - 1) * (t - 1)
        + 170158 / 100000 * (t - 1) * (t - 1)
  | EasingName.other => fun t => if t < 1 / 2 then 2 * t * t else -1 + (4 - 2 * t) * t

/-- `applyEasing` (utils.js:207-210): clamp the input to `[0,1]`, then
apply the named curve. -/
def applyEasing (t : ℚ) (name : EasingName) : ℚ :=
  easingFun name (max 0 (min 1 t))

/-- A position-tween record as created by
`CanvasEngine.triggerPositionAnimation` (canvas.js:253-261). -/
structure PosAnim where
  startTime : ℚ
  fromX : ℚ
  fromY : ℚ
  toX : ℚ
  toY : ℚ
deriving DecidableEq

/-- `CanvasEngine.triggerPositionAnimation` (canvas.js:253-261): the record
stored (overwriting any prior record) for the sprite id. -/
def triggerPositionAnimation (startTime fromX fromY toX toY : ℚ) : PosAnim :=
  { startTime := startTime, fromX := fromX, fromY := fromY, toX := toX, toY := toY }

/-- The raw (un-eased) progress of a position tween at time `now`
(canvas.js:330-331): `min(elapsed / duration, 1)`. -/
def rawProgress (anim : PosAnim) (dur now : ℚ) : ℚ :=
  min ((now - anim.startTime) / dur) 1

/-- The sprite `x` stored after the position-update pass of
`CanvasEngine.updateAnimations` at time `now` (canvas.js:329-349): the
eased interpolation, overwritten by the exact target when the raw progress
has reached 1.  `e` is the already-clamped easing application
`applyEasing (·) easingName`. -/
def storedX (anim : PosAnim) (dur : ℚ) (e : ℚ → ℚ) (now : ℚ) : ℚ :=
  if 1 ≤ rawProgress anim dur now then anim.toX
  else anim.fromX + (anim.toX - anim.fromX) * e (rawProgress anim dur now)

/-- The sprite `y` stored after the position-update pass, as `storedX`. -/
def storedY (anim : PosAnim) (dur : ℚ) (e : ℚ → ℚ) (now : ℚ) : ℚ :=
  if 1 ≤ rawProgress anim dur now then anim.toY
  else anim.fromY + (anim.toY - anim.fromY) * e (rawProgress anim dur now)

/-- One frame of the position-animation pass of
`CanvasEngine.updateAnimations` (canvas.js:329-349) for one record: write
the interpolated position onto the first sprite found by id (a missing id
is inert), and on raw progress ≥ 1 snap to the exact target and delete the
record. -/
def updatePositionStep (sprites : List Sprite) (spriteId : Nat) (anim : PosAnim)
    (dur : ℚ) (e : ℚ → ℚ) (now : ℚ) : List Sprite × Option PosAnim :=
  let raw := rawProgress anim dur now
  let p := e raw
  let sprites₁ := replaceFirst sprites spriteId fun s =>
    { s with
      x := anim.fromX + (anim.toX - anim.fromX) * p
      y := anim.fromY + (anim.toY - anim.fromY) * p }
  if 1 ≤ raw then
    (replaceFirst sprites₁ spriteId fun s => { s with x := anim.toX, y := anim.toY }, none)
  else (sprites₁, some anim)

/-- The scene transition styles (canvas.js:47, spec §3). -/
inductive TransStyle where
  | noneStyle : TransStyle
  | fade : TransStyle
  | fadeToBlack : TransStyle
  | fadeToWhite : TransStyle
  | slideLeft : TransStyle
  | slideRight : TransStyle
  | slideUp : TransStyle
  | slideDown : TransStyle
  | wipeLeft : TransStyle
  | wipeRight : TransStyle
deriving DecidableEq

/-- `transitionPhase` (canvas.js:51): `'out'`, `'in'` or `'none'`. -/
inductive TransPhase where
  | out : TransPhase
  | inPhase : TransPhase
  | nonePhase : TransPhase
deriving DecidableEq

/-- The scene-transition state of `CanvasEngine` (canvas.js:46-53);
`snapshot` models the presence of `previousSceneSnapshot`. -/
structure TransitionState where
  isTransitioning : Bool
  phase : TransPhase
  progress : ℚ
  snapshot : Bool
deriving DecidableEq

/-- The callbacks fired by a scene transition, in order. -/
inductive TransEvent where
  | midpoint : TransEvent
  | complete : TransEvent
deriving DecidableEq

/-- One `animate` frame of `CanvasEngine.startSceneTransition`
(canvas.js:176-202) at elapsed time `elapsed` (seconds), over the
half-duration: in phase `out` the progress ramps to 1 and on reaching 1 the
phase flips to `in` and `onMidpoint` fires; in phase `in` the progress
ramps back and on reaching 0 the state resets, the snapshot is discarded
and `onComplete` fires.  Returns the new state and the callbacks fired in
this frame. -/
def transitionFrame (halfDuration : ℚ) (st : TransitionState) (elapsed : ℚ) :
    TransitionState × List TransEvent :=
  match st.phase with
  | TransPhase.out =>
    let p := min (elapsed / halfDuration) 1
    if 1 ≤ p then
      ({ st with progress := p, phase := TransPhase.inPhase }, [TransEvent.midpoint])
    else ({ st with progress := p }, [])
  | TransPhase.inPhase =>
    let p := 1 - min ((elapsed - halfDuration) / halfDuration) 1
    if p ≤ 0 then
      ({ isTransitioning := false, phase := TransPhase.nonePhase, progress := 0,
         snapshot := false }, [TransEvent.complete])
    else ({ st with progress := p }, [])
  | TransPhase.nonePhase => (st, [])

/-- Running the `animate` frames of `startSceneTransition` at the given
elapsed times (one entry per `requestAnimationFrame` tick), collecting the
fired callbacks in order and the final state. -/
def runTransitionFrames (halfDuration : ℚ) :
    TransitionState → List ℚ → List TransEvent × TransitionState
  | st, [] => ([], st)
  | st, t :: ts =>
    ((transitionFrame halfDuration st t).2 ++
        (runTransitionFrames halfDuration (transitionFrame halfDuration st t).1 ts).1,
      (runTransitionFrames halfDuration (transitionFrame halfDuration st t).1 ts).2)

/-- `CanvasEngine.startSceneTransition` (canvas.js:154-205), observed at
the given frame times: with style `none` both callbacks fire synchronously
and the state is untouched; otherwise the snapshot is captured, the state
enters phase `out` with progress 0, and the frames run over half the
configured duration. -/
def startSceneTransition (style : TransStyle) (duration : ℚ) (st : TransitionState)
    (times : List ℚ) : List TransEvent × TransitionState :=
  if style = TransStyle.noneStyle then ([TransEvent.midpoint, TransEvent.complete], st)
  else
    let st₀ : TransitionState :=
      { isTransitioning := true, phase := TransPhase.out, progress := 0, snapshot := true }
    runTransitionFrames (duration / 2) st₀ times

/-- Sum of the pause-segment durations of a segment list. -/
def pauseSum : List Segment → Nat
  | [] => 0
  | Segment.text _ :: rest => pauseSum rest
  | Segment.pause n :: rest => n + pauseSum rest

/-- The per-line accumulation of `loadSceneToCanvas` (app.js:1747-1753 and
1761-1767): characters of text segments cost `typingSpeed` each, pause
segments their duration. -/
def segmentsDuration (segs : List Segment) (speed : Nat) : Nat :=
  segs.foldl
    (fun d seg =>
      match seg with
      | Segment.text t => d + t.length * speed
      | Segment.pause n => d + n)
    0

/-- The typing-duration estimate of `SpriteGenApp.loadSceneToCanvas`
(app.js:1742-1770), in the `startTyping` branch: nothing is counted unless
the first line is visible with nonempty text; each later line is counted
(one fade duration plus its segments) only if it is visible with nonempty
text, using `line.typingSpeed || 45` (JS `||` sends a zero speed to 45). -/
def estimateTypingDuration (lines : List DialogueLine) (fade : Nat) : Nat :=
  match lines with
  | [] => 0
  | first :: rest =>
    if first.visible && !first.text.isEmpty then
      rest.foldl
        (fun acc line =>
          if line.visible && !line.text.isEmpty then
            acc + fade +
              segmentsDuration (parseTextWithPauses line.text)
                (if line.typingSpeed = 0 then 45 else line.typingSpeed)
          else acc)
        (segmentsDuration (parseTextWithPauses first.text) first.typingSpeed)
    else 0

/-- Modelled from the spec (§6): the estimate the claim asserts — the sum
over all dialogue lines of (revealed characters × that line's
`typingSpeed`, plus the line's embedded pause durations), plus one fade
duration per line-to-line transition, computed with the same segmentation
function used internally. -/
def estimatedTypingDurationSpec (lines : List DialogueLine) (fade : Nat) : Nat :=
  (lines.map fun l =>
      (getCleanText l.text).length * l.typingSpeed + pauseSum (parseTextWithPauses l.text)).sum
    + (lines.length - 1) * fade

/-! ### Lemmas about the pause-directive matcher -/

theorem takeWhile_digits_append {ds : List Char} (l : List Char)
    (hds : ∀ c ∈ ds, c.isDigit) :
    (ds ++ ']' :: l).takeWhile Char.isDigit = ds ∧
      (ds ++ ']' :: l).dropWhile Char.isDigit = ']' :: l := by
  induction ds with
  | nil => simp [List.takeWhile_cons, List.dropWhile_cons]
  | cons d ds ih =>
    have hd : d.isDigit := hds d (by simp)
    have ih' := ih fun c hc => hds c (by simp [hc])
    simp [List.takeWhile_cons, List.dropWhile_cons, hd, ih'.1, ih'.2]

theorem matchPause_shape {l ds tail : List Char} (h : matchPause l = some (ds, tail)) :
    ds ≠ [] ∧ l = '[' :: '[' :: (ds ++ ']' :: ']' :: tail) := by
  rw [matchPause.eq_def] at h
  split at h
  case _ rest =>
    split at h
    · exact absurd h (by simp)
    case _ hne =>
      split at h
      case _ tail' heq =>
        have hrest : rest.takeWhile Char.isDigit ++ rest.dropWhile Char.isDigit = rest :=
          List.takeWhile_append_dropWhile Char.isDigit rest
        rw [heq] at hrest
        simp only [Option.some.injEq, Prod.mk.injEq] at h
        refine ⟨?_, ?_⟩
        · intro hds
          rw [← h.1] at hds
          simp [hds] at hne
        · rw [← h.1, ← h.2, hrest]
      · exact absurd h (by simp)
  · exact absurd h (by simp)

theorem matchPause_mk {ds tail : List Char} (hne : ds ≠ [])
    (hds : ∀ c ∈ ds, c.isDigit) :
    matchPause ('[' :: '[' :: (ds ++ ']' :: ']' :: tail)) = some (ds, tail) := by
  have h := takeWhile_digits_append (']' :: tail) hds
  simp [matchPause, h.1, h.2, hne]

theorem matchPause_length {l ds tail : List Char} (h : matchPause l = some (ds, tail)) :
    tail.length + 5 ≤ l.length := by
  obtain ⟨hne, rfl⟩ := matchPause_shape h
  have : 1 ≤ ds.length := List.length_pos.mpr hne
  simp [List.length_append]
  omega

/-! ### Lemmas about the segmentation scan -/

theorem parseAux_fuel : ∀ (f₁ f₂ : Nat) (acc s : List Char), s.length ≤ f₁ → s.length ≤ f₂ →
    parseAux f₁ acc s = parseAux f₂ acc s := by
  intro f₁
  induction f₁ with
  | zero =>
    intro f₂ acc s h₁ _
    have : s = [] := List.eq_nil_of_length_eq_zero (Nat.le_zero.mp h₁)
    subst this
    cases f₂ <;> simp [parseAux]
  | succ f ih =>
    intro f₂ acc s h₁ h₂
    match s with
    | [] => cases f₂ <;> simp [parseAux]
    | c :: rest =>
      match f₂ with
      | 0 => simp at h₂
      | g + 1 =>
        cases hm : matchPause (c :: rest) with
        | none =>
          simp only [parseAux, hm]
          exact ih g (c :: acc) rest (by simpa using h₁) (by simpa using h₂)
        | some val =>
          obtain ⟨ds, tail⟩ := val
          have hl := matchPause_length hm
          simp only [List.length_cons] at h₁ h₂ hl
          simp only [parseAux, hm]
          rw [ih g [] tail (by omega) (by omega)]

theorem parseAux_ne_empty_text : ∀ (f : Nat) (acc s : List Char),
    Segment.text [] ∉ parseAux f acc s := by
  intro f
  induction f with
  | zero =>
    intro acc s
    match s with
    | [] => cases acc <;> simp [parseAux, List.reverse_eq_nil_iff]
    | c :: rest => simp [parseAux]
  | succ f ih =>
    intro acc s
    match s with
    | [] => cases acc <;> simp [parseAux, List.reverse_eq_nil_iff]
    | c :: rest =>
      cases hm : matchPause (c :: rest) with
      | none => simp only [parseAux, hm]; exact ih (c :: acc) rest
      | some val =>
        obtain ⟨ds, tail⟩ := val
        cases acc <;> simp [parseAux, hm, List.reverse_eq_nil_iff, ih [] tail]

theorem segmentsText_append (l₁ l₂ : List Segment) :
    segmentsText (l₁ ++ l₂) = segmentsText l₁ ++ segmentsText l₂ := by
  induction l₁ with
  | nil => simp [segmentsText]
  | cons seg rest ih => cases seg <;> simp [segmentsText, ih]

theorem segmentsText_parseAux : ∀ (f : Nat) (acc s : List Char),
    segmentsText (parseAux f acc s) = acc.reverse ++ cleanAux f s := by
  intro f
  induction f with
  | zero =>
    intro acc s
    match s with
    | [] => cases acc <;> simp [parseAux, cleanAux, segmentsText]
    | c :: rest => simp [parseAux, cleanAux, segmentsText]
  | succ f ih =>
    intro acc s
    match s with
    | [] => cases acc <;> simp [parseAux, cleanAux, segmentsText]
    | c :: rest =>
      cases hm : matchPause (c :: rest) with
      | none =>
        simp only [parseAux, cleanAux, hm]
        rw [ih (c :: acc) rest]
        simp
      | some val =>
        obtain ⟨ds, tail⟩ := val
        simp only [parseAux, cleanAux, hm]
        rw [segmentsText_append]
        cases acc <;> simp [segmentsText, ih [] tail]

theorem parseAux_of_no_directive : ∀ (f : Nat) (acc s : List Char), hasDirective s = false →
    parseAux f acc s =
      if (acc.reverse ++ s).isEmpty then [] else [Segment.text (acc.reverse ++ s)] := by
  intro f
  induction f with
  | zero =>
    intro acc s _
    match s with
    | [] => cases acc <;> simp [parseAux]
    | c :: rest => cases acc <;> simp [parseAux]
  | succ f ih =>
    intro acc s hs
    match s with
    | [] => cases acc <;> simp [parseAux]
    | c :: rest =>
      cases hm : matchPause (c :: rest) with
      | some val =>
        exfalso
        simp [hasDirective, hm] at hs
      | none =>
        have hrest : hasDirective rest = false := by
          simpa [hasDirective, hm] using hs
        simp only [parseAux, hm]
        rw [ih (c :: acc) rest hrest]
        simp

theorem renderSegments_append (l₁ l₂ : List Segment) :
    renderSegments (l₁ ++ l₂) = renderSegments l₁ ++ renderSegments l₂ := by
  induction l₁ with
  | nil => simp [renderSegments]
  | cons seg rest ih => cases seg <;> simp [renderSegments, ih]

theorem renderSegments_parseAux : ∀ (f : Nat) (acc s : List Char), canonAux f s = true →
    renderSegments (parseAux f acc s) = acc.reverse ++ s := by
  intro f
  induction f with
  | zero =>
    intro acc s _
    match s with
    | [] => cases acc <;> simp [parseAux, renderSegments]
    | c :: rest => simp [parseAux, renderSegments]
  | succ f ih =>
    intro acc s hs
    match s with
    | [] => cases acc <;> simp [parseAux, renderSegments]
    | c :: rest =>
      cases hm : matchPause (c :: rest) with
      | none =>
        simp only [parseAux, canonAux, hm] at hs ⊢
        rw [ih (c :: acc) rest hs]
        simp
      | some val =>
        obtain ⟨ds, tail⟩ := val
        simp only [parseAux, canonAux, hm, Bool.and_eq_true, beq_iff_eq] at hs ⊢
        rw [renderSegments_append]
        obtain ⟨hcanon, htail⟩ := hs
        have hshape := (matchPause_shape hm).2
        rw [hshape]
        cases acc <;> simp [renderSegments, hcanon, ih [] tail htail]

theorem parseAux_adjacent (f : Nat) (ds₁ ds₂ tail : List Char)
    (h₁ : ds₁ ≠ []) (hd₁ : ∀ c ∈ ds₁, c.isDigit)
    (h₂ : ds₂ ≠ []) (hd₂ : ∀ c ∈ ds₂, c.isDigit)
    (hf : ds₁.length + ds₂.length + tail.length + 8 ≤ f) :
    parseAux f []
        ('[' :: '[' :: (ds₁ ++ ']' :: ']' :: '[' :: '[' :: (ds₂ ++ ']' :: ']' :: tail))) =
      Segment.pause (digitsToNat ds₁) :: Segment.pause (digitsToNat ds₂) ::
        parseTextWithPauses tail := by
  match f with
  | 0 => omega
  | 1 => omega
  | g + 2 =>
    have hm₁ : matchPause ('[' :: '[' :: (ds₁ ++ ']' :: ']' :: '[' :: '[' ::
        (ds₂ ++ ']' :: ']' :: tail))) =
          some (ds₁, '[' :: '[' :: (ds₂ ++ ']' :: ']' :: tail)) := matchPause_mk h₁ hd₁
    simp only [parseAux, hm₁, List.isEmpty_nil, if_true, List.nil_append]
    have hm₂ : matchPause ('[' :: '[' :: (ds₂ ++ ']' :: ']' :: tail)) = some (ds₂, tail) :=
      matchPause_mk h₂ hd₂
    simp only [parseAux, hm₂, List.isEmpty_nil, if_true, List.nil_append]
    rw [parseAux_fuel g tail.length [] tail (by omega) le_rfl]
    rfl

/-! ### Claim C3: segments between consecutive pause directives -/

/-- Claim C3, refuted at its own example: segmenting `"a[[100]][[200]]b"`
yields the two pause segments adjacent to each other, and no zero-length
text segment appears anywhere in the output (the code pushes a text
segment only when `match.index > lastIndex`). -/
theorem claim_C3_counterexample :
    parseTextWithPauses "a[[100]][[200]]b".data =
      [Segment.text "a".data, Segment.pause 100, Segment.pause 200, Segment.text "b".data] ∧
      Segment.text [] ∉ parseTextWithPauses "a[[100]][[200]]b".data := by
  constructor
  · decide
  · decide

/-- Claim C3 as amended: the segmentation function never produces a
zero-length text segment; for an input carrying two pause directives with
no characters between them, the two pause segments are emitted adjacently
with no text segment between them (so no character is revealed between the
two delays). -/
theorem claim_C3_amended :
    (∀ s : List Char, Segment.text [] ∉ parseTextWithPauses s) ∧
      ∀ (ds₁ ds₂ tail : List Char), ds₁ ≠ [] → (∀ c ∈ ds₁, c.isDigit) → ds₂ ≠ [] →
        (∀ c ∈ ds₂, c.isDigit) →
        parseTextWithPauses
            ('[' :: '[' :: (ds₁ ++ ']' :: ']' :: '[' :: '[' :: (ds₂ ++ ']' :: ']' :: tail))) =
          Segment.pause (digitsToNat ds₁) :: Segment.pause (digitsToNat ds₂) ::
            parseTextWithPauses tail := by
  constructor
  · intro s
    exact parseAux_ne_empty_text s.length [] s
  · intro ds₁ ds₂ tail h₁ hd₁ h₂ hd₂
    rw [parseTextWithPauses]
    apply parseAux_adjacent _ _ _ _ h₁ hd₁ h₂ hd₂
    simp [List.length_append]
    omega

/-- Witness for the amended claim C3 at `"[[100]][[200]]b"`. -/
theorem claim_C3_amended_witness :
    parseTextWithPauses
        ('[' :: '[' :: ("100".data ++ ']' :: ']' :: '[' :: '[' :: ("200".data ++ ']' :: ']' :: "b".data))) =
      Segment.pause 100 :: Segment.pause 200 :: parseTextWithPauses "b".data := by
  have h := claim_C3_amended.2 "100".data "200".data "b".data
    (by decide) (by decide) (by decide) (by decide)
  have e₁ : digitsToNat "100".data = 100 := by decide
  have e₂ : digitsToNat "200".data = 200 := by decide
  rw [e₁, e₂] at h
  exact h

/-! ### Claim C7: reference segmentation examples -/

/-- Claim C7, refuted at the empty string: the empty text contains no pause
directive, yet segmentation yields zero segments rather than a single text
segment equal to the input. -/
theorem claim_C7_counterexample :
    hasDirective "".data = false ∧ parseTextWithPauses "".data = [] ∧
      parseTextWithPauses "".data ≠ [Segment.text "".data] := by
  refine ⟨by decide, by decide, by decide⟩

/-- Claim C7 as amended: segmenting `"Hello [[500]]world"` yields exactly
text/pause/text as stated, its clean text is `"Hello world"`, and any
NONEMPTY text containing no pause directive yields a single text segment
equal to the input (the empty text yields zero segments). -/
theorem claim_C7_amended :
    parseTextWithPauses "Hello [[500]]world".data =
        [Segment.text "Hello ".data, Segment.pause 500, Segment.text "world".data] ∧
      getCleanText "Hello [[500]]world".data = "Hello world".data ∧
      ∀ s : List Char, s ≠ [] → hasDirective s = false →
        parseTextWithPauses s = [Segment.text s] := by
  refine ⟨by decide, by decide, ?_⟩
  intro s hs hd
  rw [parseTextWithPauses, parseAux_of_no_directive s.length [] s hd]
  simp [hs]

/-- Witness for the amended claim C7 at `"abc"`. -/
theorem claim_C7_amended_witness :
    parseTextWithPauses "abc".data = [Segment.text "abc".data] :=
  claim_C7_amended.2.2 "abc".data (by decide) (by decide)

/-! ### Claim C8: totality and malformed directives -/

/-- Claim C8: the segmentation scan is total — any fuel at least the input
length computes the same result (each step strictly consumes input, the
formal counterpart of the JS scan loop terminating on every input) — and a
text with no well-formed directive (unterminated `[[`, non-integer between
brackets) is returned as literal text: a single text segment equal to the
input (or no segment for empty input), never a pause segment or an error;
in general the text segments preserve exactly the non-directive characters
(their concatenation is the clean text). -/
theorem claim_C8_total_malformed_literal :
    ∀ s : List Char,
      (∀ f : Nat, s.length ≤ f → parseAux f [] s = parseTextWithPauses s) ∧
      (hasDirective s = false →
        parseTextWithPauses s = if s.isEmpty then [] else [Segment.text s]) ∧
      segmentsText (parseTextWithPauses s) = getCleanText s := by
  intro s
  refine ⟨?_, ?_, ?_⟩
  · intro f hf
    exact parseAux_fuel f s.length [] s hf le_rfl
  · intro hd
    rw [parseTextWithPauses, parseAux_of_no_directive s.length [] s hd]
    simp
  · rw [parseTextWithPauses, getCleanText, segmentsText_parseAux]
    simp

/-- Witness for claim C8 at the malformed input `"ab[[12"`. -/
theorem claim_C8_total_malformed_literal_witness :
    parseAux 20 [] "ab[[12".data = parseTextWithPauses "ab[[12".data ∧
      parseTextWithPauses "ab[[12".data = [Segment.text "ab[[12".data] := by
  have h₁ := (claim_C8_total_malformed_literal "ab[[12".data).1 20 (by decide)
  have h₂ := (claim_C8_total_malformed_literal "ab[[12".data).2.1 (by decide)
  have e : ("ab[[12".data).isEmpty = false := by decide
  rw [e] at h₂
  exact ⟨h₁, by simpa using h₂⟩

/-! ### Claim C10: segmentation round trip -/

/-- Claim C10, refuted at `"[[00]]"`: re-interleaving the parsed segments
prints the pause value canonically as `"[[0]]"`, which differs from the
input (the leading zero of the original directive is lost). -/
theorem claim_C10_counterexample :
    renderSegments (parseTextWithPauses "[[00]]".data) = "[[0]]".data ∧
      renderSegments (parseTextWithPauses "[[00]]".data) ≠ "[[00]]".data := by
  refine ⟨by decide, by decide⟩

/-- Claim C10 as amended: for every input, concatenating the text-segment
contents equals the clean-text extraction; and re-interleaving the pause
segments as `[[n]]` directives reconstructs the input exactly whenever
every directive of the input writes its integer canonically (no leading
zeros — the only information the pause segment does not retain). -/
theorem claim_C10_amended :
    ∀ s : List Char,
      segmentsText (parseTextWithPauses s) = getCleanText s ∧
      (canonicalDirectives s = true → renderSegments (parseTextWithPauses s) = s) := by
  intro s
  constructor
  · rw [parseTextWithPauses, getCleanText, segmentsText_parseAux]
    simp
  · intro hc
    rw [parseTextWithPauses, renderSegments_parseAux s.length [] s hc]
    simp

/-- Witness for the amended claim C10 at `"Hi[[250]] there"`. -/
theorem claim_C10_amended_witness :
    renderSegments (parseTextWithPauses "Hi[[250]] there".data) = "Hi[[250]] there".data :=
  (claim_C10_amended "Hi[[250]] there".data).2 (by decide)

/-! ### Claim C5: skipTyping -/

/-- Claim C5: in any typing state, `skipTyping` cancels the pending reveal
timer, sets `displayedText` to the full clean text, clears `isTyping`,
sets `typingComplete`, and no further typewriter mutation can occur (the
only later mutation source is the pending timer firing, and for a state
with no pending timer firing is the identity). -/
theorem claim_C5_skipTyping (st : TypingState) :
    (skipTyping st).displayedText = getCleanText st.text ∧
      (skipTyping st).isTyping = false ∧
      (skipTyping st).typingComplete = true ∧
      (skipTyping st).typingTimeout = none ∧
      fireTypingTimeout (skipTyping st) = skipTyping st :=
  ⟨rfl, rfl, rfl, rfl, rfl⟩

/-! ### Claim C6: advancing past the last dialogue line -/

/-- Claim C6: when the cursor is at the last line (or the list is empty,
where the JS condition `index >= length - 1` also holds),
`advanceToNextLine` returns `false` and leaves the whole cursor state —
current-line projection and line index included — unchanged; when a next
line exists it returns `true`. -/
theorem claim_C6_advanceToNextLine (d : DialogueCursor) :
    (d.currentLineIndex + 1 ≥ d.dialogueLines.length → advanceToNextLine d = (false, d)) ∧
      (d.currentLineIndex + 1 < d.dialogueLines.length → (advanceToNextLine d).1 = true) := by
  constructor
  · intro h
    simp [advanceToNextLine, h]
  · intro h
    simp [advanceToNextLine, Nat.not_le.mpr h]

/-- Witness for claim C6: a one-line cursor at its last line is unchanged
and reports `false`; a two-line cursor at line 0 reports `true`. -/
theorem claim_C6_advanceToNextLine_witness :
    advanceToNextLine
        ⟨[⟨"hi".data, 50, true⟩], 0, ⟨"hi".data, 50, true⟩, false⟩ =
      (false, ⟨[⟨"hi".data, 50, true⟩], 0, ⟨"hi".data, 50, true⟩, false⟩) ∧
      (advanceToNextLine
          ⟨[⟨"hi".data, 50, true⟩, ⟨"yo".data, 50, true⟩], 0,
            ⟨"hi".data, 50, true⟩, false⟩).1 = true :=
  ⟨(claim_C6_advanceToNextLine _).1 (by decide),
   (claim_C6_advanceToNextLine _).2 (by decide)⟩

/-! ### Claim C9: the typing-duration estimate -/

theorem segmentsText_parse (t : List Char) :
    segmentsText (parseTextWithPauses t) = getCleanText t := by
  rw [parseTextWithPauses, getCleanText, segmentsText_parseAux]
  simp

theorem segmentsDuration_eq (segs : List Segment) (speed : Nat) :
    segmentsDuration segs speed = (segmentsText segs).length * speed + pauseSum segs := by
  suffices h : ∀ (d : Nat),
      segs.foldl
        (fun d seg =>
          match seg with
          | Segment.text t => d + t.length * speed
          | Segment.pause n => d + n)
        d = d + (segmentsText segs).length * speed + pauseSum segs by
    simpa [segmentsDuration] using h 0
  induction segs with
  | nil => intro d; simp [segmentsText, pauseSum]
  | cons seg rest ih =>
    intro d
    cases seg with
    | text t =>
      simp only [List.foldl_cons, segmentsText, pauseSum, ih, List.length_append]
      ring
    | pause n =>
      simp only [List.foldl_cons, segmentsText, pauseSum, ih]
      ring

theorem estimate_foldl (fade : Nat) : ∀ (rest : List DialogueLine) (init : Nat),
    (∀ l ∈ rest, l.visible = true ∧ l.text ≠ [] ∧ l.typingSpeed ≠ 0) →
    rest.foldl
        (fun acc line =>
          if line.visible && !line.text.isEmpty then
            acc + fade +
              segmentsDuration (parseTextWithPauses line.text)
                (if line.typingSpeed = 0 then 45 else line.typingSpeed)
          else acc)
        init =
      init +
        (rest.map fun l =>
            (getCleanText l.text).length * l.typingSpeed +
              pauseSum (parseTextWithPauses l.text)).sum +
        rest.length * fade := by
  intro rest
  induction rest with
  | nil => intro init _; simp
  | cons l rest ih =>
    intro init h
    obtain ⟨hv, ht, hs⟩ := h l (by simp)
    have hcond : (l.visible && !l.text.isEmpty) = true := by
      simp [hv, List.isEmpty_iff, ht]
    simp only [List.foldl_cons, hcond, if_true, if_neg hs, List.map_cons, List.sum_cons,
      List.length_cons]
    rw [ih _ fun x hx => h x (by simp [hx])]
    rw [segmentsDuration_eq, segmentsText_parse]
    ring

/-- Claim C9, refuted: a scene whose second line is visible but has empty
text contributes nothing to the code's estimate (neither its fade
transition nor its characters), while the claimed per-line sum still adds
one fade duration for the line-to-line transition. -/
theorem claim_C9_counterexample :
    estimateTypingDuration [⟨"Hi".data, 50, true⟩, ⟨"".data, 50, true⟩] 300 = 100 ∧
      estimatedTypingDurationSpec [⟨"Hi".data, 50, true⟩, ⟨"".data, 50, true⟩] 300 = 400 ∧
      estimateTypingDuration [⟨"Hi".data, 50, true⟩, ⟨"".data, 50, true⟩] 300 ≠
        estimatedTypingDurationSpec [⟨"Hi".data, 50, true⟩, ⟨"".data, 50, true⟩] 300 := by
  refine ⟨by decide, by decide, by decide⟩

/-- Claim C9 as amended: for every scene all of whose dialogue lines are
visible, have nonempty text and a nonzero `typingSpeed` (the code skips
invisible/empty lines together with their fade, and JS `||` sends a zero
speed of a later line to 45), the estimate computed by
`loadSceneToCanvas` equals the sum over all lines of (revealed characters
× that line's `typingSpeed` + the line's embedded pause durations) plus
one fade duration per line-to-line transition, computed with the same
segmentation function used internally. -/
theorem claim_C9_amended (lines : List DialogueLine) (fade : Nat)
    (h : ∀ l ∈ lines, l.visible = true ∧ l.text ≠ [] ∧ l.typingSpeed ≠ 0) :
    estimateTypingDuration lines fade = estimatedTypingDurationSpec lines fade := by
  cases lines with
  | nil => simp [estimateTypingDuration, estimatedTypingDurationSpec]
  | cons first rest =>
    obtain ⟨hv, ht, _⟩ := h first (by simp)
    have hcond : (first.visible && !first.text.isEmpty) = true := by
      simp [hv, List.isEmpty_iff, ht]
    simp only [estimateTypingDuration, hcond, if_true]
    rw [estimate_foldl fade rest _ fun x hx => h x (by simp [hx])]
    rw [segmentsDuration_eq, segmentsText_parse]
    simp only [estimatedTypingDurationSpec, List.map_cons, List.sum_cons, List.length_cons,
      Nat.add_sub_cancel]

/-- Witness for the amended claim C9 on a two-line scene with a pause
directive. -/
theorem claim_C9_amended_witness :
    estimateTypingDuration [⟨"Hi".data, 50, true⟩, ⟨"Yo[[10]]".data, 20, true⟩] 300 =
      estimatedTypingDurationSpec [⟨"Hi".data, 50, true⟩, ⟨"Yo[[10]]".data, 20, true⟩] 300 :=
  claim_C9_amended _ 300 (by decide)

/-! ### Claim C1: the scale invariant -/

theorem resizeScale_bounds (startScale delta : ℚ) :
    10 ≤ resizeScale startScale delta ∧ resizeScale startScale delta ≤ 300 := by
  unfold resizeScale
  set c := max 10 (min 300 (startScale + delta * (1 / 2))) with hc
  have h10 : (10 : ℚ) ≤ c := le_max_left _ _
  have h300 : c ≤ 300 := max_le (by norm_num) (min_le_left _ _)
  rw [round_eq]
  constructor
  · exact Int.le_floor.mpr (by push_cast; linarith)
  · have hlt : c + 1 / 2 < ((301 : ℤ) : ℚ) := by push_cast; linarith
    have := Int.floor_lt.mpr hlt
    omega

theorem find?_replaceFirst (l : List Sprite) (spriteId : Nat) (f : Sprite → Sprite)
    (hf : ∀ s, (f s).id = s.id) :
    (replaceFirst l spriteId f).find? (fun t => t.id = spriteId) =
      (l.find? (fun t => t.id = spriteId)).map f := by
  induction l with
  | nil => simp [replaceFirst]
  | cons s rest ih =>
    by_cases hid : s.id = spriteId
    · simp [replaceFirst, hid, List.find?_cons, hf]
    · simp [replaceFirst, hid, List.find?_cons, ih]

/-- Claim C1, refuted on `updateSprite`: a programmatic property edit with
`scale: 400` stores 400 verbatim, outside `[10,300]`. -/
theorem claim_C1_counterexample :
    (updateSprite [{ id := 0, x := 0, y := 0, scale := 100, opacity := 100 }] 0
        { x := none, y := none, scale := some 400, opacity := none }).map Sprite.scale =
      [400] ∧ ¬ ((400 : ℚ) ≤ 300) := by
  constructor
  · rfl
  · norm_num

/-- Claim C1 as amended: pointer resize via `onMouseMove` always stores a
scale in `[10,300]` (the clamp runs before the rounding, for every corner
and any pointer movement); `updateSprite`, by contrast, assigns the
requested properties verbatim with no clamping, so the invariant is
enforced for interactive resize but not for programmatic edits. -/
theorem claim_C1_amended :
    (∀ (corner : Corner) (dx dy startScale : ℚ),
        10 ≤ resizeScale startScale (resizeDelta corner dx dy) ∧
          resizeScale startScale (resizeDelta corner dx dy) ≤ 300) ∧
      (∀ (s : Sprite) (p : SpriteProps), (assignProps s p).scale = p.scale.getD s.scale) ∧
      ∀ (sprites : List Sprite) (spriteId : Nat) (p : SpriteProps) (s : Sprite),
        sprites.find? (fun t => t.id = spriteId) = some s →
        (updateSprite sprites spriteId p).find? (fun t => t.id = spriteId) =
          some (assignProps s p) := by
  refine ⟨fun _ dx dy s0 => resizeScale_bounds s0 _, fun _ _ => rfl, ?_⟩
  intro sprites spriteId p s hs
  rw [updateSprite, find?_replaceFirst sprites spriteId (fun t => assignProps t p) fun t => rfl, hs]
  rfl

/-- Witness for the amended claim C1: a concrete resize lands in bounds and
a concrete `updateSprite` stores the requested scale verbatim. -/
theorem claim_C1_amended_witness :
    (10 ≤ resizeScale 100 (resizeDelta Corner.br 1000 1000) ∧
        resizeScale 100 (resizeDelta Corner.br 1000 1000) ≤ 300) ∧
      (updateSprite [{ id := 5, x := 0, y := 0, scale := 100, opacity := 100 }] 5
          { x := none, y := none, scale := some 400, opacity := none }).find?
          (fun t => t.id = 5) =
        some (assignProps { id := 5, x := 0, y := 0, scale := 100, opacity := 100 }
          { x := none, y := none, scale := some 400, opacity := none }) :=
  ⟨claim_C1_amended.1 Corner.br 1000 1000 100,
   claim_C1_amended.2.2 _ 5 _ _ (by rfl)⟩

/-! ### Claim C4: position tweens -/

theorem applyEasing_zero (name : EasingName) : applyEasing 0 name = 0 := by
  cases name <;> norm_num [applyEasing, easingFun]

theorem find?_replaceFirst_xy (l : List Sprite) (spriteId : Nat) (px py : ℚ) :
    (replaceFirst l spriteId fun t => { t with x := px, y := py }).find?
        (fun t => t.id = spriteId) =
      (l.find? (fun t => t.id = spriteId)).map fun t => { t with x := px, y := py } := by
  induction l with
  | nil => simp [replaceFirst]
  | cons s rest ih =>
    by_cases hid : s.id = spriteId
    · simp [replaceFirst, hid, List.find?_cons]
    · simp [replaceFirst, hid, List.find?_cons, ih]

theorem replaceFirst_xy_xy (l : List Sprite) (spriteId : Nat) (px py qx qy : ℚ) :
    replaceFirst (replaceFirst l spriteId fun t => { t with x := px, y := py }) spriteId
        (fun t => { t with x := qx, y := qy }) =
      replaceFirst l spriteId fun t => { t with x := qx, y := qy } := by
  induction l with
  | nil => simp [replaceFirst]
  | cons s rest ih =>
    by_cases hid : s.id = spriteId
    · simp [replaceFirst, hid]
    · simp [replaceFirst, hid, ih]

theorem updatePositionStep_find? (sprites : List Sprite) (spriteId : Nat)
    (anim : PosAnim) (dur : ℚ) (e : ℚ → ℚ) (now : ℚ) (s : Sprite)
    (hs : sprites.find? (fun t => t.id = spriteId) = some s) :
    (updatePositionStep sprites spriteId anim dur e now).1.find? (fun t => t.id = spriteId) =
      some { s with x := storedX anim dur e now, y := storedY anim dur e now } := by
  unfold updatePositionStep storedX storedY
  by_cases h : 1 ≤ rawProgress anim dur now
  · simp only [h, if_true]
    rw [replaceFirst_xy_xy, find?_replaceFirst_xy, hs]
    rfl
  · simp only [h, if_false]
    rw [find?_replaceFirst_xy, hs]
    rfl

theorem updatePositionStep_snd (sprites : List Sprite) (spriteId : Nat)
    (anim : PosAnim) (dur : ℚ) (e : ℚ → ℚ) (now : ℚ) :
    (updatePositionStep sprites spriteId anim dur e now).2 =
      if 1 ≤ rawProgress anim dur now then none else some anim := by
  unfold updatePositionStep
  by_cases h : 1 ≤ rawProgress anim dur now <;> simp [h]

theorem rawProgress_le_one (anim : PosAnim) (dur now : ℚ) :
    rawProgress anim dur now ≤ 1 :=
  min_le_right _ _

theorem rawProgress_mono (anim : PosAnim) (dur : ℚ) (hd : 0 < dur) {t₁ t₂ : ℚ}
    (h : t₁ ≤ t₂) : rawProgress anim dur t₁ ≤ rawProgress anim dur t₂ := by
  unfold rawProgress
  exact min_le_min ((div_le_div_iff_of_pos_right hd).mpr (by linarith)) le_rfl

theorem tween_interp_mono (a b : ℚ) (e : ℚ → ℚ) (hm : Monotone e) (he1 : e 1 ≤ 1)
    (r₁ r₂ : ℚ) (h12 : r₁ ≤ r₂) (h1 : r₁ ≤ 1) (hab : a ≤ b) :
    (if 1 ≤ r₁ then b else a + (b - a) * e r₁) ≤
      (if 1 ≤ r₂ then b else a + (b - a) * e r₂) := by
  by_cases hr₁ : 1 ≤ r₁
  · rw [if_pos hr₁, if_pos (le_trans hr₁ h12)]
  · rw [if_neg hr₁]
    by_cases hr₂ : 1 ≤ r₂
    · rw [if_pos hr₂]
      have he : e r₁ ≤ 1 := le_trans (hm h1) he1
      nlinarith
    · rw [if_neg hr₂]
      have he : e r₁ ≤ e r₂ := hm h12
      nlinarith

theorem tween_interp_anti (a b : ℚ) (e : ℚ → ℚ) (hm : Monotone e) (he1 : e 1 ≤ 1)
    (r₁ r₂ : ℚ) (h12 : r₁ ≤ r₂) (h1 : r₁ ≤ 1) (hab : b ≤ a) :
    (if 1 ≤ r₂ then b else a + (b - a) * e r₂) ≤
      (if 1 ≤ r₁ then b else a + (b - a) * e r₁) := by
  by_cases hr₁ : 1 ≤ r₁
  · rw [if_pos hr₁, if_pos (le_trans hr₁ h12)]
  · rw [if_neg hr₁]
    by_cases hr₂ : 1 ≤ r₂
    · rw [if_pos hr₂]
      have he : e r₁ ≤ 1 := le_trans (hm h1) he1
      nlinarith
    · rw [if_neg hr₂]
      have he : e r₁ ≤ e r₂ := hm h12
      nlinarith

theorem storedX_mono (anim : PosAnim) (dur : ℚ) (e : ℚ → ℚ) (hd : 0 < dur)
    (hm : Monotone e) (he1 : e 1 ≤ 1) {t₁ t₂ : ℚ} (h12 : t₁ ≤ t₂)
    (hab : anim.fromX ≤ anim.toX) :
    storedX anim dur e t₁ ≤ storedX anim dur e t₂ := by
  unfold storedX
  exact tween_interp_mono _ _ e hm he1 _ _ (rawProgress_mono anim dur hd h12)
    (rawProgress_le_one anim dur t₁) hab

theorem storedX_anti (anim : PosAnim) (dur : ℚ) (e : ℚ → ℚ) (hd : 0 < dur)
    (hm : Monotone e) (he1 : e 1 ≤ 1) {t₁ t₂ : ℚ} (h12 : t₁ ≤ t₂)
    (hab : anim.toX ≤ anim.fromX) :
    storedX anim dur e t₂ ≤ storedX anim dur e t₁ := by
  unfold storedX
  exact tween_interp_anti _ _ e hm he1 _ _ (rawProgress_mono anim dur hd h12)
    (rawProgress_le_one anim dur t₁) hab

theorem storedY_mono (anim : PosAnim) (dur : ℚ) (e : ℚ → ℚ) (hd : 0 < dur)
    (hm : Monotone e) (he1 : e 1 ≤ 1) {t₁ t₂ : ℚ} (h12 : t₁ ≤ t₂)
    (hab : anim.fromY ≤ anim.toY) :
    storedY anim dur e t₁ ≤ storedY anim dur e t₂ := by
  unfold storedY
  exact tween_interp_mono _ _ e hm he1 _ _ (rawProgress_mono anim dur hd h12)
    (rawProgress_le_one anim dur t₁) hab

theorem storedY_anti (anim : PosAnim) (dur : ℚ) (e : ℚ → ℚ) (hd : 0 < dur)
    (hm : Monotone e) (he1 : e 1 ≤ 1) {t₁ t₂ : ℚ} (h12 : t₁ ≤ t₂)
    (hab : anim.toY ≤ anim.fromY) :
    storedY anim dur e t₂ ≤ storedY anim dur e t₁ := by
  unfold storedY
  exact tween_interp_anti _ _ e hm he1 _ _ (rawProgress_mono anim dur hd h12)
    (rawProgress_le_one anim dur t₁) hab

/-- Claim C4: for a position tween created by `triggerPositionAnimation` on
a sprite present in the scene, with positive configured duration: (i) each
`updateAnimations` frame stores exactly the eased interpolation (snapped to
the target on completion) onto that sprite; (ii) at elapsed time 0, for
every library easing curve, the stored position is exactly `(fromX, fromY)`
and the record is kept; (iii) at raw (un-eased) elapsed ≥ duration, for any
easing, the stored position is exactly `(toX, toY)` and the record is
deleted; (iv) for a monotone easing curve (mapping 1 to at most 1, per the
§4.1 contract that eased progress stays in `[0,1]`) the stored position
moves monotonically from the start point toward the target in each
coordinate. -/
theorem claim_C4_positionTween (name : EasingName) (e : ℚ → ℚ)
    (dur startTime fromX fromY toX toY : ℚ) (sprites : List Sprite) (spriteId : Nat)
    (s : Sprite) (anim : PosAnim)
    (hd : 0 < dur)
    (hs : sprites.find? (fun t => t.id = spriteId) = some s)
    (ha : anim = triggerPositionAnimation startTime fromX fromY toX toY) :
    (∀ (e' : ℚ → ℚ) (now : ℚ),
        (updatePositionStep sprites spriteId anim dur e' now).1.find?
            (fun t => t.id = spriteId) =
          some { s with x := storedX anim dur e' now, y := storedY anim dur e' now }) ∧
      (storedX anim dur (fun t => applyEasing t name) startTime = fromX ∧
        storedY anim dur (fun t => applyEasing t name) startTime = fromY ∧
        (updatePositionStep sprites spriteId anim dur (fun t => applyEasing t name)
            startTime).2 = some anim) ∧
      (∀ (e' : ℚ → ℚ) (now : ℚ), dur ≤ now - startTime →
        storedX anim dur e' now = toX ∧ storedY anim dur e' now = toY ∧
          (updatePositionStep sprites spriteId anim dur e' now).2 = none) ∧
      (Monotone e → e 1 ≤ 1 → ∀ t₁ t₂ : ℚ, t₁ ≤ t₂ →
        (fromX ≤ toX → storedX anim dur e t₁ ≤ storedX anim dur e t₂) ∧
          (toX ≤ fromX → storedX anim dur e t₂ ≤ storedX anim dur e t₁) ∧
          (fromY ≤ toY → storedY anim dur e t₁ ≤ storedY anim dur e t₂) ∧
          (toY ≤ fromY → storedY anim dur e t₂ ≤ storedY anim dur e t₁)) := by
  subst ha
  have hraw0 : rawProgress (triggerPositionAnimation startTime fromX fromY toX toY) dur
      startTime = 0 := by
    unfold rawProgress triggerPositionAnimation
    norm_num
  refine ⟨fun e' now => updatePositionStep_find? _ _ _ _ _ _ _ hs, ⟨?_, ?_, ?_⟩, ?_, ?_⟩
  · rw [storedX, hraw0]
    norm_num [applyEasing_zero name, triggerPositionAnimation]
  · rw [storedY, hraw0]
    norm_num [applyEasing_zero name, triggerPositionAnimation]
  · rw [updatePositionStep_snd, hraw0]
    norm_num
  · intro e' now hnow
    have hraw1 : rawProgress (triggerPositionAnimation startTime fromX fromY toX toY) dur
        now = 1 := by
      unfold rawProgress triggerPositionAnimation
      have h1d : (1 : ℚ) ≤ (now - startTime) / dur := (one_le_div hd).mpr (by linarith)
      simp only [min_eq_right h1d]
    refine ⟨?_, ?_, ?_⟩
    · rw [storedX, hraw1]
      norm_num [triggerPositionAnimation]
    · rw [storedY, hraw1]
      norm_num [triggerPositionAnimation]
    · rw [updatePositionStep_snd, hraw1]
      norm_num
  · intro hm he1 t₁ t₂ h12
    refine ⟨fun hab => storedX_mono _ _ _ hd hm he1 h12 ?_,
      fun hab => storedX_anti _ _ _ hd hm he1 h12 ?_,
      fun hab => storedY_mono _ _ _ hd hm he1 h12 ?_,
      fun hab => storedY_anti _ _ _ hd hm he1 h12 ?_⟩ <;>
    · simpa [triggerPositionAnimation] using hab

/-- Witness for claim C4: a concrete tween from `(0,0)` to `(10,20)` over
duration 1 starts exactly at 0, snaps exactly to the target at elapsed 2,
and with the identity easing moves monotonically. -/
theorem claim_C4_positionTween_witness :
    storedX (triggerPositionAnimation 0 0 0 10 20) 1
        (fun t => applyEasing t EasingName.linear) 0 = 0 ∧
      storedX (triggerPositionAnimation 0 0 0 10 20) 1 (fun t => t) 2 = 10 ∧
      storedX (triggerPositionAnimation 0 0 0 10 20) 1 (fun t => t) (1 / 2) ≤
        storedX (triggerPositionAnimation 0 0 0 10 20) 1 (fun t => t) 1 := by
  have h := claim_C4_positionTween EasingName.linear (fun t => t) 1 0 0 0 10 20
    [{ id := 7, x := 0, y := 0, scale := 100, opacity := 100 }] 7
    { id := 7, x := 0, y := 0, scale := 100, opacity := 100 }
    (triggerPositionAnimation 0 0 0 10 20) (by norm_num) (by rfl) rfl
  refine ⟨h.2.1.1, (h.2.2.1 (fun t => t) 2 (by norm_num)).1, ?_⟩
  exact (h.2.2.2 (fun a b hab => hab) le_rfl (1 / 2) 1 (by norm_num)).1 (by norm_num)

/-! ### Claim C2: scene transition callbacks -/

theorem runTransitionFrames_nonePhase (half : ℚ) :
    ∀ (ts : List ℚ) (it : Bool) (pr : ℚ) (sn : Bool),
      runTransitionFrames half ⟨it, TransPhase.nonePhase, pr, sn⟩ ts =
        ([], ⟨it, TransPhase.nonePhase, pr, sn⟩) := by
  intro ts
  induction ts with
  | nil => intro it pr sn; rfl
  | cons t ts ih =>
    intro it pr sn
    simp only [runTransitionFrames, transitionFrame, ih]
    simp

theorem runTransitionFrames_inPhase (half : ℚ) (hhalf : 0 < half) :
    ∀ (ts : List ℚ) (it : Bool) (pr : ℚ) (sn : Bool),
      (∃ t ∈ ts, 2 * half ≤ t) →
      (runTransitionFrames half ⟨it, TransPhase.inPhase, pr, sn⟩ ts).1 =
        [TransEvent.complete] := by
  intro ts
  induction ts with
  | nil =>
    intro it pr sn h
    simp at h
  | cons t ts ih =>
    intro it pr sn hex
    by_cases hc : 2 * half ≤ t
    · have h1 : (1 : ℚ) ≤ (t - half) / half := (one_le_div hhalf).mpr (by linarith)
      have hframe : transitionFrame half ⟨it, TransPhase.inPhase, pr, sn⟩ t =
          (⟨false, TransPhase.nonePhase, 0, false⟩, [TransEvent.complete]) := by
        simp only [transitionFrame]
        rw [min_eq_right h1]
        norm_num
      simp only [runTransitionFrames, hframe, runTransitionFrames_nonePhase]
      simp
    · have hlt : (t - half) / half < 1 := (div_lt_one hhalf).mpr (by linarith)
      have hframe : transitionFrame half ⟨it, TransPhase.inPhase, pr, sn⟩ t =
          (⟨it, TransPhase.inPhase, 1 - (t - half) / half, sn⟩, []) := by
        simp only [transitionFrame]
        rw [min_eq_left (le_of_lt hlt), if_neg (by linarith)]
      have hnext : ∃ x ∈ ts, 2 * half ≤ x := by
        obtain ⟨x, hx, hx2⟩ := hex
        rcases List.mem_cons.mp hx with rfl | hmem
        · exact absurd hx2 hc
        · exact ⟨x, hmem, hx2⟩
      simp only [runTransitionFrames, hframe, ih _ _ _ hnext]
      simp

theorem runTransitionFrames_outPhase (half : ℚ) (hhalf : 0 < half) :
    ∀ (ts : List ℚ) (it : Bool) (pr : ℚ) (sn : Bool),
      (∃ (pre mid post : List ℚ) (a b : ℚ), ts = pre ++ a :: mid ++ b :: post ∧
          half ≤ a ∧ 2 * half ≤ b) →
      (runTransitionFrames half ⟨it, TransPhase.out, pr, sn⟩ ts).1 =
        [TransEvent.midpoint, TransEvent.complete] := by
  intro ts
  induction ts with
  | nil =>
    intro it pr sn h
    obtain ⟨pre, mid, post, a, b, heq, _, _⟩ := h
    cases pre <;> simp at heq
  | cons t ts ih =>
    intro it pr sn hex
    obtain ⟨pre, mid, post, a, b, heq, hha, hhb⟩ := hex
    by_cases hm : half ≤ t
    · have h1 : (1 : ℚ) ≤ t / half := (one_le_div hhalf).mpr hm
      have hframe : transitionFrame half ⟨it, TransPhase.out, pr, sn⟩ t =
          (⟨it, TransPhase.inPhase, 1, sn⟩, [TransEvent.midpoint]) := by
        simp only [transitionFrame]
        rw [min_eq_right h1, if_pos le_rfl]
      have hbts : b ∈ ts := by
        cases pre with
        | nil =>
          rw [List.nil_append] at heq
          injection heq with h1 h2
          rw [h2]
          simp
        | cons p pre' =>
          rw [List.cons_append] at heq
          injection heq with h1 h2
          rw [h2]
          simp [List.mem_append]
      simp only [runTransitionFrames, hframe,
        runTransitionFrames_inPhase half hhalf ts _ _ _ ⟨b, hbts, hhb⟩]
      simp
    · cases pre with
      | nil =>
        rw [List.nil_append] at heq
        injection heq with h1 h2
        exact absurd (show half ≤ t by rw [h1]; exact hha) hm
      | cons p pre' =>
        rw [List.cons_append] at heq
        injection heq with h1 h2
        have htlt : t < half := lt_of_not_le hm
        have hlt : t / half < 1 := (div_lt_one hhalf).mpr htlt
        have hframe : transitionFrame half ⟨it, TransPhase.out, pr, sn⟩ t =
            (⟨it, TransPhase.out, t / half, sn⟩, []) := by
          simp only [transitionFrame]
          rw [min_eq_left (le_of_lt hlt), if_neg (by linarith)]
        simp only [runTransitionFrames, hframe,
          ih it (t / half) sn ⟨pre', mid, post, a, b, h2, hha, hhb⟩]
        simp

/-- Claim C2: for every call to `startSceneTransition` with positive
configured duration, observed at frame times among which some frame
reaches the half-duration and some strictly later frame reaches the full
duration: `onMidpoint` fires exactly once — at the frame where the
out-progress reaches 1 and the phase flips to `in` — and `onComplete`
fires exactly once, after the in-phase progress has returned to 0: the
emitted callback sequence is exactly `[midpoint, complete]`.  With style
`none`, both callbacks fire synchronously inside the call and the
transition state is left untouched (no transition state is entered). -/
theorem claim_C2_sceneTransition (style : TransStyle) (duration : ℚ) (st : TransitionState)
    (pre mid post : List ℚ) (a b : ℚ)
    (hdur : 0 < duration) (ha : duration / 2 ≤ a) (hb : duration ≤ b) :
    (style ≠ TransStyle.noneStyle →
        (startSceneTransition style duration st (pre ++ a :: mid ++ b :: post)).1 =
          [TransEvent.midpoint, TransEvent.complete]) ∧
      startSceneTransition TransStyle.noneStyle duration st (pre ++ a :: mid ++ b :: post) =
        ([TransEvent.midpoint, TransEvent.complete], st) := by
  constructor
  · intro hstyle
    rw [startSceneTransition, if_neg hstyle]
    exact runTransitionFrames_outPhase (duration / 2) (by linarith) _ true 0 true
      ⟨pre, mid, post, a, b, rfl, ha, by linarith⟩
  · simp [startSceneTransition]

/-- Witness for claim C2: a fade transition of duration 2 sampled at
elapsed times 1 and 2 fires exactly `[midpoint, complete]`; style `none`
fires both synchronously leaving the state untouched. -/
theorem claim_C2_sceneTransition_witness :
    (startSceneTransition TransStyle.fade 2 ⟨false, TransPhase.nonePhase, 0, false⟩
          ([] ++ (1 : ℚ) :: [] ++ (2 : ℚ) :: [])).1 =
        [TransEvent.midpoint, TransEvent.complete] ∧
      startSceneTransition TransStyle.noneStyle 2 ⟨false, TransPhase.nonePhase, 0, false⟩
          ([] ++ (1 : ℚ) :: [] ++ (2 : ℚ) :: []) =
        ([TransEvent.midpoint, TransEvent.complete],
          ⟨false, TransPhase.nonePhase, 0, false⟩) :=
  ⟨(claim_C2_sceneTransition TransStyle.fade 2 ⟨false, TransPhase.nonePhase, 0, false⟩
      [] [] [] 1 2 (by norm_num) (by norm_num) (by norm_num)).1 (by decide),
   (claim_C2_sceneTransition TransStyle.noneStyle 2 ⟨false, TransPhase.nonePhase, 0, false⟩
      [] [] [] 1 2 (by norm_num) (by norm_num) (by norm_num)).2⟩
